import Mathlib

/-!
Shallow embedding of the autovideomaker core (src/types.ts and the main
application component in src/unnamed/part_000): the script parser
(`handleTxtUpload`), the filename sanitizer (`sanitizeFilename`), the batch
generation controller (`processBatch`), and the timeline normalization sweep
inside `handleSync`.  JavaScript numbers that carry timeline seconds are
modelled as rationals; the external image-generation service is modelled as an
oracle assigning an outcome to each call index.
-/

namespace AVM

/-- Lifecycle status of a script line (src/types.ts, `ScriptLine.status`). -/
inductive Status where
  | pending
  | generating
  | completed
  | failed
deriving DecidableEq, Repr

/-- A script line record (src/types.ts `ScriptLine`).  Optional fields are
`Option`s; the ISO timestamp string is abstracted to the controller's call
counter value at the moment of stamping. -/
structure ScriptLine where
  id : String
  originalText : String
  spokenText : String
  imagePrompt : String
  status : Status
  imageData : Option String := none
  imageFileName : Option String := none
  batchId : Option Nat := none
  timestamp : Option Nat := none
  error : Option String := none
deriving DecidableEq, Repr

/-- A credential session (src/types.ts `ApiKeySession`). -/
structure ApiKeySession where
  key : String
  limit : Nat
  used : Nat
  isValid : Bool
  batchId : Nat
deriving DecidableEq, Repr

/-- A timeline entry (src/types.ts `TimelineEntry`); times in seconds are
modelled as rationals. -/
structure TimelineEntry where
  id : String
  scriptLineId : String
  startTime : ℚ
  endTime : ℚ
  text : String
  image : String
deriving DecidableEq, Repr

/-- src/types.ts: `MIN_IMAGE_DURATION = 0.8`. -/
def MIN_IMAGE_DURATION : ℚ := 4/5

/-! ## Filename sanitizer (part_000 lines 64-66)

`text.toLowerCase().replace(/[^a-z0-9]/g, '_').slice(0, 50)`: the string is
lowercased (modelled character-wise, ASCII), then every character outside
`[a-z0-9]` is replaced by `_` (one underscore per character, runs are not
collapsed), then the result is truncated to 50 characters. -/

def sanitizeFilename (text : String) : String :=
  String.mk
    (((text.data.map Char.toLower).map
        (fun c => if ('a' ≤ c ∧ c ≤ 'z') ∨ ('0' ≤ c ∧ c ≤ '9') then c else '_')).take 50)

/-- part_000 line 225: the stored file name is the sanitized spoken text with
the fixed `.png` extension appended. -/
def derivedFilename (text : String) : String :=
  sanitizeFilename text ++ ".png"

/-- Modelled from the spec: the spec's words for the derived filename say every
RUN of consecutive characters outside `[a-z0-9]` is collapsed to a single
separator character; this definition follows those words (lowercase, replace
each disallowed character by `_`, then squeeze consecutive `_` runs to one,
then truncate to 50 and append the extension), for comparison with
`derivedFilename`, which follows the source. -/
def squeezeSep : List Char → List Char
  | [] => []
  | [c] => [c]
  | c :: d :: rest =>
    if c = '_' && d = '_' then squeezeSep (d :: rest)
    else c :: squeezeSep (d :: rest)

/-- Modelled from the spec: derived filename with separator runs collapsed
(see `squeezeSep`). -/
def specDerivedFilename (text : String) : String :=
  String.mk
    ((squeezeSep ((text.data.map Char.toLower).map
        (fun c => if ('a' ≤ c ∧ c ≤ 'z') ∨ ('0' ≤ c ∧ c ≤ '9') then c else '_'))).take 50)
    ++ ".png"

/-! ## Script parser (part_000 lines 93-126, inside `handleTxtUpload`)

The raw text is split on `'\n'`, lines whose trimmed form is empty are
dropped, and each remaining line is split on the FIRST `'|'` into
(spokenText, imagePrompt), both trimmed; without a `'|'` the whole trimmed
line is the spoken text and the prompt is empty. -/

/-- JavaScript `String.prototype.trim`, modelled for ASCII whitespace:
drop whitespace from both ends. -/
def jsTrim (s : String) : String :=
  String.mk
    (((s.data.dropWhile Char.isWhitespace).reverse.dropWhile Char.isWhitespace).reverse)

/-- Split a character list at the first `'|'`: `some (before, after)` when a
pipe is present (`line.indexOf('|') !== -1`), `none` otherwise. -/
def splitFirstPipe : List Char → Option (List Char × List Char)
  | [] => none
  | c :: rest =>
    if c = '|' then some ([], rest)
    else
      match splitFirstPipe rest with
      | none => none
      | some (a, b) => some (c :: a, b)

/-- Parse one raw line at index `idx` (part_000 lines 94-116). -/
def parseLine (idx : Nat) (line : String) : ScriptLine :=
  match splitFirstPipe line.data with
  | some (a, b) =>
    { id := "line-" ++ toString idx,
      originalText := line,
      spokenText := jsTrim (String.mk a),
      imagePrompt := jsTrim (String.mk b),
      status := Status.pending }
  | none =>
    { id := "line-" ++ toString idx,
      originalText := line,
      spokenText := jsTrim line,
      imagePrompt := "",
      status := Status.pending }

/-- Map the parser over the kept lines, threading the running index. -/
def parseLinesFrom (idx : Nat) : List String → List ScriptLine
  | [] => []
  | l :: rest => parseLine idx l :: parseLinesFrom (idx + 1) rest

/-- JavaScript `text.split('\n')` at the character level: split into the
segments between newline characters, keeping empty segments. -/
def splitNewlines : List Char → List (List Char)
  | [] => [[]]
  | c :: rest =>
    let r := splitNewlines rest
    if c = '\n' then [] :: r
    else
      match r with
      | [] => [[c]]
      | g :: gs => (c :: g) :: gs

/-- part_000 line 93: `text.split('\n').filter(l => l.trim().length > 0)`. -/
def scriptSourceLines (text : String) : List String :=
  ((splitNewlines text.data).map String.mk).filter (fun l => 0 < (jsTrim l).length)

/-- The full parse performed by `handleTxtUpload`: kept lines, in order,
each turned into a pending `ScriptLine` with an index-derived id. -/
def parseScript (text : String) : List ScriptLine :=
  parseLinesFrom 0 (scriptSourceLines text)

/-! ## Timeline construction and normalization (part_000 `handleSync`) -/

/-- One alignment hint from the alignment collaborator. -/
structure Alignment where
  lineId : String
  startTime : ℚ
  endTime : ℚ
deriving DecidableEq, Repr

/-- part_000 line 321: only lines with status `completed` and an image payload
are selected for the timeline, in document order. -/
def completedSelection (lines : List ScriptLine) : List ScriptLine :=
  lines.filter (fun l => l.status == Status.completed && l.imageData.isSome)

/-- part_000 lines 328-339: build the raw timeline, looking up each selected
line's alignment hint by id; a missing hint yields start 0 and end 0. -/
def buildTimeline (alignments : List Alignment) (completedLines : List ScriptLine) :
    List TimelineEntry :=
  completedLines.map (fun line =>
    match alignments.find? (fun a => a.lineId == line.id) with
    | some a =>
      { id := line.id, scriptLineId := line.id,
        startTime := a.startTime, endTime := a.endTime,
        text := line.spokenText,
        image := "data:image/png;base64," ++ line.imageData.getD "" }
    | none =>
      { id := line.id, scriptLineId := line.id,
        startTime := 0, endTime := 0,
        text := line.spokenText,
        image := "data:image/png;base64," ++ line.imageData.getD "" })

/-- part_000 line 344: `fallbackDurationPerSlide = 3`. -/
def fallbackDurationPerSlide : ℚ := 3

/-- One iteration of the normalization sweep (part_000 lines 346-365): clamp
the start up to `lastEnd`, then, when the end does not exceed the clamped
start by more than the minimum duration, replace the end by start + 3 when the
original end was exactly 0 and by start + minimum duration otherwise. -/
def normalizeStep (lastEnd : ℚ) (t : TimelineEntry) : TimelineEntry :=
  let s := if t.startTime < lastEnd then lastEnd else t.startTime
  let e :=
    if t.endTime ≤ s + MIN_IMAGE_DURATION then
      if t.endTime = 0 then s + fallbackDurationPerSlide else s + MIN_IMAGE_DURATION
    else t.endTime
  { t with startTime := s, endTime := e }

/-- The left-to-right normalization sweep, threading `lastEnd`. -/
def normalizeSweep : ℚ → List TimelineEntry → List TimelineEntry
  | _, [] => []
  | lastEnd, t :: rest =>
    let t2 := normalizeStep lastEnd t
    t2 :: normalizeSweep t2.endTime rest

/-- The whole normalization pass of `handleSync`, with `lastEnd` initialized
to 0 (part_000 line 342). -/
def normalizeTimeline (l : List TimelineEntry) : List TimelineEntry :=
  normalizeSweep 0 l

/-! ## Batch generation controller (part_000 `processBatch`, lines 175-288)

The image-generation collaborator is modelled as an oracle mapping the global
call index to one of three outcomes, matching its documented contract: an
image payload, the distinguished `QuotaError`, or a generic failure. -/

/-- Outcome of one `generateImageForLine` call. -/
inductive GenOutcome where
  | ok (base64 : String)
  | quota (msg : String)
  | err (msg : String)
deriving DecidableEq, Repr

/-- Result of the inner retry loop (part_000 lines 214-250) for one line:
how many calls it consumed and the list of backoff delays (in seconds) that
were awaited between failed attempts. -/
inductive AttemptResult where
  | success (base64 : String) (calls : Nat) (backoffs : List ℚ)
  | quotaHit (msg : String) (calls : Nat) (backoffs : List ℚ)
  | failedAll (msg : String) (calls : Nat) (backoffs : List ℚ)
deriving DecidableEq, Repr

/-- The inner retry loop (`while attempts < 3 && !success`), unrolled to its
three bounded attempts.  A `QuotaError` aborts immediately; a generic error
on attempt 1 or 2 awaits the fixed 1.5s backoff and retries; a generic error
on attempt 3 reports that last message. -/
def retryGen (oracle : Nat → GenOutcome) (c : Nat) : AttemptResult :=
  match oracle c with
  | GenOutcome.ok b => AttemptResult.success b 1 []
  | GenOutcome.quota m => AttemptResult.quotaHit m 1 []
  | GenOutcome.err _ =>
    match oracle (c + 1) with
    | GenOutcome.ok b => AttemptResult.success b 2 [(3/2 : ℚ)]
    | GenOutcome.quota m => AttemptResult.quotaHit m 2 [(3/2 : ℚ)]
    | GenOutcome.err _ =>
      match oracle (c + 2) with
      | GenOutcome.ok b => AttemptResult.success b 3 [(3/2 : ℚ), (3/2 : ℚ)]
      | GenOutcome.quota m => AttemptResult.quotaHit m 3 [(3/2 : ℚ), (3/2 : ℚ)]
      | GenOutcome.err m3 => AttemptResult.failedAll m3 3 [(3/2 : ℚ), (3/2 : ℚ)]

/-- Observable state returned by the controller's main `while` loop over the
line suffix starting at the resume index: the rewritten suffix, the final
consumption counter, whether the loop was aborted by a quota signal, the
counter value at the start of every generation visit, the counter values
taken after each increment, the number of successful generations, and the
awaited backoff delays. -/
structure LoopOut where
  suffix : List ScriptLine
  used : Nat
  quota : Bool
  startUseds : List Nat
  usedTrace : List Nat
  succs : Nat
  backoffs : List ℚ
deriving Repr

/-- The controller's `while` loop (part_000 lines 197-270), phrased over the
suffix of lines from the resume index on.  Each iteration first checks
`used < limit`, skips lines already `completed`, marks the line `generating`
with its error cleared, and dispatches on the retry loop's result: success
stores the payload, derived filename, batch id and timestamp, marks
`completed` and increments the counter; three failures mark the line `failed`
with the last message; a quota signal resets the line to `pending` and aborts
with the remaining lines untouched. -/
def batchLoop (oracle : Nat → GenOutcome) (bId limit : Nat) :
    List ScriptLine → Nat → Nat → LoopOut
  | [], used, _ =>
    { suffix := [], used := used, quota := false,
      startUseds := [], usedTrace := [], succs := 0, backoffs := [] }
  | l :: rest, used, c =>
    if used < limit then
      if l.status = Status.completed then
        let o := batchLoop oracle bId limit rest used c
        { o with suffix := l :: o.suffix }
      else
        match retryGen oracle c with
        | AttemptResult.success b k w =>
          let l2 : ScriptLine :=
            { l with
                status := Status.completed, error := none,
                imageData := some b,
                imageFileName := some (derivedFilename l.spokenText),
                batchId := some bId, timestamp := some c }
          let o := batchLoop oracle bId limit rest (used + 1) (c + k)
          { suffix := l2 :: o.suffix, used := o.used, quota := o.quota,
            startUseds := used :: o.startUseds,
            usedTrace := (used + 1) :: o.usedTrace,
            succs := o.succs + 1, backoffs := w ++ o.backoffs }
        | AttemptResult.failedAll m k w =>
          let l2 : ScriptLine := { l with status := Status.failed, error := some m }
          let o := batchLoop oracle bId limit rest used (c + k)
          { suffix := l2 :: o.suffix, used := o.used, quota := o.quota,
            startUseds := used :: o.startUseds,
            usedTrace := o.usedTrace, succs := o.succs, backoffs := w ++ o.backoffs }
        | AttemptResult.quotaHit _ _ w =>
          { suffix := ({ l with status := Status.pending, error := none } :: rest),
            used := used, quota := true, startUseds := [used],
            usedTrace := [], succs := 0, backoffs := w }
    else
      { suffix := l :: rest, used := used, quota := false,
        startUseds := [], usedTrace := [], succs := 0, backoffs := [] }

/-- part_000 line 187: a line is a resume point when its status is `pending`
or `failed`. -/
def isResumable (l : ScriptLine) : Bool :=
  l.status == Status.pending || l.status == Status.failed

/-- `lines.findIndex(l => ...)` phrased as a split: `none` when no line is
resumable, otherwise the untouched prefix before the first resumable line and
the suffix starting at it. -/
def splitResume : List ScriptLine → Option (List ScriptLine × List ScriptLine)
  | [] => none
  | l :: rest =>
    if isResumable l then some ([], l :: rest)
    else
      match splitResume rest with
      | none => none
      | some (before, suffix) => some (l :: before, suffix)

/-- Everything observable about one controller run: the final line sequence
and session, whether the run aborted on quota exhaustion, whether the stored
key was cleared (`setTempKey('')`) and the key modal shown, which completion
report was issued, and the loop's event lists. -/
structure RunResult where
  lines : List ScriptLine
  session : ApiKeySession
  quotaExhausted : Bool
  keyCleared : Bool
  modalShown : Bool
  allDone : Bool
  batchLimit : Bool
  startUseds : List Nat
  usedTrace : List Nat
  succs : Nat
  backoffs : List ℚ
deriving Repr

/-- One run of the controller (part_000 lines 175-288).  When no line is
`pending` or `failed` the run reports completion at once; otherwise the loop
runs from the first resumable line.  A quota abort clears the stored key and
prompts for a new one with the current line reset to `pending`; otherwise,
when a `pending` line remains the run reports the batch limit, clears the key
and prompts; when none remains it reports overall completion. -/
def processBatch (oracle : Nat → GenOutcome) (session : ApiKeySession)
    (lines : List ScriptLine) : RunResult :=
  match splitResume lines with
  | none =>
    { lines := lines, session := session, quotaExhausted := false,
      keyCleared := false, modalShown := false, allDone := true, batchLimit := false,
      startUseds := [], usedTrace := [session.used], succs := 0, backoffs := [] }
  | some (before, suffix) =>
    let o := batchLoop oracle session.batchId session.limit suffix session.used 0
    let newLines := before ++ o.suffix
    let newSession := { session with used := o.used }
    if o.quota then
      { lines := newLines, session := newSession, quotaExhausted := true,
        keyCleared := true, modalShown := true, allDone := false, batchLimit := false,
        startUseds := o.startUseds, usedTrace := session.used :: o.usedTrace,
        succs := o.succs, backoffs := o.backoffs }
    else if newLines.all (fun l => !(l.status == Status.pending)) then
      { lines := newLines, session := newSession, quotaExhausted := false,
        keyCleared := false, modalShown := false, allDone := true, batchLimit := false,
        startUseds := o.startUseds, usedTrace := session.used :: o.usedTrace,
        succs := o.succs, backoffs := o.backoffs }
    else if session.limit ≤ o.used then
      { lines := newLines, session := newSession, quotaExhausted := false,
        keyCleared := true, modalShown := true, allDone := false, batchLimit := true,
        startUseds := o.startUseds, usedTrace := session.used :: o.usedTrace,
        succs := o.succs, backoffs := o.backoffs }
    else
      { lines := newLines, session := newSession, quotaExhausted := false,
        keyCleared := false, modalShown := false, allDone := false, batchLimit := false,
        startUseds := o.startUseds, usedTrace := session.used :: o.usedTrace,
        succs := o.succs, backoffs := o.backoffs }

/-- Number of lines whose status is `completed`. -/
def countCompleted (ls : List ScriptLine) : Nat :=
  (ls.filter (fun l => l.status == Status.completed)).length

/-- No line of the list has status `generating`. -/
def noGenerating (ls : List ScriptLine) : Prop :=
  ∀ l ∈ ls, l.status ≠ Status.generating

/-- The budget invariant over one run's observables: the final consumption is
within the limit, every value the consumption counter takes during the run is
within the limit, and every generation visit starts strictly below the
limit. -/
def usedWithinLimit (limit : Nat) (r : RunResult) : Prop :=
  r.session.used ≤ limit ∧ (∀ u ∈ r.usedTrace, u ≤ limit) ∧
    (∀ u ∈ r.startUseds, u < limit)

/-! ## Sample inputs used by witnesses -/

/-- Oracle that always succeeds. -/
def okOracle : Nat → GenOutcome := fun _ => GenOutcome.ok "IMG"

/-- Oracle that always fails with a generic error. -/
def errOracle : Nat → GenOutcome := fun _ => GenOutcome.err "boom"

/-- Oracle that always signals quota exhaustion. -/
def quotaOracle : Nat → GenOutcome := fun _ => GenOutcome.quota "out"

/-- Oracle whose first three calls fail generically and which succeeds from
the fourth call on. -/
def failThenOk : Nat → GenOutcome :=
  fun n => if n < 3 then GenOutcome.err "boom" else GenOutcome.ok "IMG"

/-- A fresh pending line with an index-derived id. -/
def wLine (i : Nat) : ScriptLine :=
  { id := "line-" ++ toString i, originalText := "t", spokenText := "Hello world"
    imagePrompt := "", status := Status.pending }

/-- A fresh session with budget 2. -/
def wSession : ApiKeySession :=
  { key := "k", limit := 2, used := 0, isValid := true, batchId := 1 }

/-- A line already completed by an earlier session. -/
def wDone : ScriptLine :=
  { wLine 0 with
      status := Status.completed, imageData := some "OLD",
      imageFileName := some "old.png", batchId := some 7, timestamp := some 9 }

/-- Sample timeline entries for the normalization witnesses. -/
def tlA : TimelineEntry := ⟨"A", "A", 0, 2, "a", "i"⟩

/-- Sample entry with no alignment hint (start 0, end 0). -/
def tlB : TimelineEntry := ⟨"B", "B", 0, 0, "b", "i"⟩

/-- Sample entry overlapping its predecessor. -/
def tlC : TimelineEntry := ⟨"C", "C", 1, 3, "c", "i"⟩

/-- Sample raw timeline: hints for A and C, none for B. -/
def sampleTL : List TimelineEntry := [tlA, tlB, tlC]

/-- Normalized form of `tlB` inside `sampleTL`: pushed to start 2, fallback
duration 3. -/
def nB : TimelineEntry := ⟨"B", "B", 2, 5, "b", "i"⟩

/-! ## Normalization lemmas -/

lemma normalizeStep_startTime (le : ℚ) (t : TimelineEntry) :
    (normalizeStep le t).startTime = if t.startTime < le then le else t.startTime := rfl

lemma normalizeStep_endTime (le : ℚ) (t : TimelineEntry) :
    (normalizeStep le t).endTime =
      if t.endTime ≤ (if t.startTime < le then le else t.startTime) + MIN_IMAGE_DURATION then
        (if t.endTime = 0 then
          (if t.startTime < le then le else t.startTime) + fallbackDurationPerSlide
         else (if t.startTime < le then le else t.startTime) + MIN_IMAGE_DURATION)
      else t.endTime := rfl

lemma normalizeStep_start_ge (le : ℚ) (t : TimelineEntry) :
    le ≤ (normalizeStep le t).startTime := by
  rw [normalizeStep_startTime]
  split_ifs with h
  · exact le_refl le
  · exact le_of_not_lt h

lemma normalizeStep_dur (le : ℚ) (t : TimelineEntry) :
    MIN_IMAGE_DURATION ≤ (normalizeStep le t).endTime - (normalizeStep le t).startTime := by
  rw [normalizeStep_endTime, normalizeStep_startTime]
  simp only [MIN_IMAGE_DURATION, fallbackDurationPerSlide]
  split_ifs with h1 h2 h3 <;> linarith

lemma normalizeStep_end_ge (le : ℚ) (t : TimelineEntry) :
    le ≤ (normalizeStep le t).endTime := by
  have h1 := normalizeStep_start_ge le t
  have h2 := normalizeStep_dur le t
  have : (0 : ℚ) < MIN_IMAGE_DURATION := by norm_num [MIN_IMAGE_DURATION]
  linarith

lemma normalizeStep_fields (le : ℚ) (t : TimelineEntry) :
    (normalizeStep le t).id = t.id ∧ (normalizeStep le t).scriptLineId = t.scriptLineId ∧
      (normalizeStep le t).text = t.text ∧ (normalizeStep le t).image = t.image :=
  ⟨rfl, rfl, rfl, rfl⟩

lemma normalizeSweep_length (le : ℚ) (l : List TimelineEntry) :
    (normalizeSweep le l).length = l.length := by
  induction l generalizing le with
  | nil => rfl
  | cons t rest ih => simp [normalizeSweep, ih]

lemma normalizeSweep_head_start (le : ℚ) (l : List TimelineEntry) (a : TimelineEntry)
    (h : (normalizeSweep le l)[0]? = some a) : le ≤ a.startTime := by
  cases l with
  | nil => simp [normalizeSweep] at h
  | cons t rest =>
    simp only [normalizeSweep, List.getElem?_cons_zero, Option.some.injEq] at h
    subst h
    exact normalizeStep_start_ge le t

lemma normalizeSweep_chain (l : List TimelineEntry) :
    ∀ (le : ℚ) (i : Nat) (a b : TimelineEntry),
      (normalizeSweep le l)[i]? = some a → (normalizeSweep le l)[i + 1]? = some b →
      a.endTime ≤ b.startTime := by
  induction l with
  | nil => intro le i a b h _; simp [normalizeSweep] at h
  | cons t rest ih =>
    intro le i a b h1 h2
    cases i with
    | zero =>
      simp only [normalizeSweep, List.getElem?_cons_zero, Option.some.injEq] at h1
      simp only [normalizeSweep, List.getElem?_cons_succ] at h2
      subst h1
      exact normalizeSweep_head_start _ _ _ h2
    | succ n =>
      simp only [normalizeSweep, List.getElem?_cons_succ] at h1 h2
      exact ih _ n a b h1 h2

lemma normalizeSweep_dur (l : List TimelineEntry) :
    ∀ (le : ℚ) (t : TimelineEntry), t ∈ normalizeSweep le l →
      MIN_IMAGE_DURATION ≤ t.endTime - t.startTime := by
  induction l with
  | nil => intro le t h; simp [normalizeSweep] at h
  | cons t0 rest ih =>
    intro le t h
    simp only [normalizeSweep, List.mem_cons] at h
    rcases h with h | h
    · subst h; exact normalizeStep_dur le t0
    · exact ih _ t h

lemma normalizeSweep_fields (l : List TimelineEntry) :
    ∀ (le : ℚ) (i : Nat) (a b : TimelineEntry), l[i]? = some a →
      (normalizeSweep le l)[i]? = some b →
      b.id = a.id ∧ b.scriptLineId = a.scriptLineId ∧ b.text = a.text ∧ b.image = a.image := by
  induction l with
  | nil => intro le i a b h _; simp at h
  | cons t rest ih =>
    intro le i a b h1 h2
    cases i with
    | zero =>
      simp only [List.getElem?_cons_zero, Option.some.injEq] at h1
      simp only [normalizeSweep, List.getElem?_cons_zero, Option.some.injEq] at h2
      rw [← h2, ← h1]
      exact normalizeStep_fields le t
    | succ n =>
      simp only [List.getElem?_cons_succ] at h1
      simp only [normalizeSweep, List.getElem?_cons_succ] at h2
      exact ih _ n a b h1 h2

lemma normalizeSweep_fallback (l : List TimelineEntry) :
    ∀ (le : ℚ), 0 ≤ le → ∀ (i : Nat) (t : TimelineEntry), l[i]? = some t →
      t.startTime = 0 → t.endTime = 0 →
      ∃ u, (normalizeSweep le l)[i]? = some u ∧
        u.endTime = u.startTime + fallbackDurationPerSlide := by
  induction l with
  | nil => intro le _ i t h; simp at h
  | cons t0 rest ih =>
    intro le hle i t h1 hs he
    cases i with
    | zero =>
      simp only [List.getElem?_cons_zero, Option.some.injEq] at h1
      rw [← h1] at hs he
      refine ⟨normalizeStep le t0, ?_, ?_⟩
      · simp [normalizeSweep]
      · rw [normalizeStep_endTime, normalizeStep_startTime, hs, he]
        have hs0 : (0 : ℚ) ≤ if (0 : ℚ) < le then le else (0 : ℚ) := by
          split_ifs with h
          · exact le_of_lt h
          · exact le_refl 0
        have hmin : (0 : ℚ) < MIN_IMAGE_DURATION := by norm_num [MIN_IMAGE_DURATION]
        rw [if_pos (by linarith), if_pos rfl]
    | succ n =>
      simp only [List.getElem?_cons_succ] at h1
      have hle2 : (0 : ℚ) ≤ (normalizeStep le t0).endTime :=
        le_trans hle (normalizeStep_end_ge le t0)
      obtain ⟨u, hu, hd⟩ := ih _ hle2 n t h1 hs he
      exact ⟨u, by simpa [normalizeSweep, List.getElem?_cons_succ] using hu, hd⟩

/-! ## Claims C3 and C4: the normalization invariants -/

/-- C3: for every input list of timeline entries, after the normalization
sweep every pair of adjacent output entries satisfies start(i+1) ≥ end(i),
every output entry is at least the minimum duration (0.8s) long, and the
output has the same length as the input with each entry's identity fields
(id, script line id, text, image) taken from the input entry at the same
position, so the sweep never reorders entries. -/
theorem claim_C3_normalization_invariant (l : List TimelineEntry) :
    (normalizeTimeline l).length = l.length ∧
    (∀ (i : Nat) (a b : TimelineEntry),
        (normalizeTimeline l)[i]? = some a → (normalizeTimeline l)[i + 1]? = some b →
        a.endTime ≤ b.startTime) ∧
    (∀ t ∈ normalizeTimeline l, MIN_IMAGE_DURATION ≤ t.endTime - t.startTime) ∧
    (∀ (i : Nat) (a b : TimelineEntry), l[i]? = some a → (normalizeTimeline l)[i]? = some b →
        b.id = a.id ∧ b.scriptLineId = a.scriptLineId ∧ b.text = a.text ∧ b.image = a.image) :=
  ⟨normalizeSweep_length 0 l,
   fun i a b h1 h2 => normalizeSweep_chain l 0 i a b h1 h2,
   fun t h => normalizeSweep_dur l 0 t h,
   fun i a b h1 h2 => normalizeSweep_fields l 0 i a b h1 h2⟩

/-- C3 witness: on the sample timeline (hints for A and C, none for B) the
normalized B starts at A's end and the normalized C starts at B's end. -/
theorem claim_C3_witness :
    tlA.endTime ≤ nB.startTime ∧ MIN_IMAGE_DURATION ≤ nB.endTime - nB.startTime :=
  ⟨(claim_C3_normalization_invariant sampleTL).2.1 0 tlA nB
      (by norm_num [normalizeTimeline, normalizeSweep, normalizeStep, sampleTL, tlA, tlB,
        tlC, nB, MIN_IMAGE_DURATION, fallbackDurationPerSlide])
      (by norm_num [normalizeTimeline, normalizeSweep, normalizeStep, sampleTL, tlA, tlB,
        tlC, nB, MIN_IMAGE_DURATION, fallbackDurationPerSlide]),
   (claim_C3_normalization_invariant sampleTL).2.2.1 nB
      (by norm_num [normalizeTimeline, normalizeSweep, normalizeStep, sampleTL, tlA, tlB,
        tlC, nB, MIN_IMAGE_DURATION, fallbackDurationPerSlide])⟩

/-- C4: an entry that entered the normalization sweep with start 0 and end 0
(no alignment hint at all) leaves it with exactly the fallback duration of
3 seconds measured from its resolved start, not merely the 0.8s minimum. -/
theorem claim_C4_fallback_duration (l : List TimelineEntry) (i : Nat) (t : TimelineEntry)
    (hi : l[i]? = some t) (hs : t.startTime = 0) (he : t.endTime = 0) :
    ∃ u, (normalizeTimeline l)[i]? = some u ∧
      u.endTime = u.startTime + fallbackDurationPerSlide :=
  normalizeSweep_fallback l 0 le_rfl i t hi hs he

/-! ## Controller loop lemmas -/

lemma countCompleted_nil : countCompleted [] = 0 := rfl

lemma countCompleted_cons (x : ScriptLine) (xs : List ScriptLine) :
    countCompleted (x :: xs)
      = (if x.status = Status.completed then 1 else 0) + countCompleted xs := by
  simp only [countCompleted, List.filter_cons, beq_iff_eq]
  split_ifs with h
  · simp only [List.length_cons]; omega
  · omega

lemma countCompleted_append (xs ys : List ScriptLine) :
    countCompleted (xs ++ ys) = countCompleted xs + countCompleted ys := by
  simp [countCompleted, List.filter_append]

lemma batchLoop_length (oracle : Nat → GenOutcome) (bId limit : Nat) :
    ∀ (suffix : List ScriptLine) (used c : Nat),
      (batchLoop oracle bId limit suffix used c).suffix.length = suffix.length := by
  intro suffix
  induction suffix with
  | nil => intro used c; rfl
  | cons l rest ih =>
    intro used c
    by_cases hu : used < limit
    · by_cases hc : l.status = Status.completed
      · simp only [batchLoop, if_pos hu, if_pos hc, List.length_cons, ih]
      · rcases hr : retryGen oracle c with ⟨b, k, w⟩ | ⟨m, k, w⟩ | ⟨m, k, w⟩ <;>
          simp only [batchLoop, if_pos hu, if_neg hc, hr, List.length_cons, ih]
    · simp only [batchLoop, if_neg hu]

lemma batchLoop_no_generating (oracle : Nat → GenOutcome) (bId limit : Nat) :
    ∀ (suffix : List ScriptLine) (used c : Nat),
      (∀ l ∈ suffix, l.status ≠ Status.generating) →
      ∀ l ∈ (batchLoop oracle bId limit suffix used c).suffix,
        l.status ≠ Status.generating := by
  intro suffix
  induction suffix with
  | nil => intro used c _ l hl; simp [batchLoop] at hl
  | cons l0 rest ih =>
    intro used c hin l hl
    have hin0 : l0.status ≠ Status.generating := hin l0 (List.mem_cons_self l0 rest)
    have hinr : ∀ x ∈ rest, x.status ≠ Status.generating :=
      fun x hx => hin x (List.mem_cons_of_mem l0 hx)
    by_cases hu : used < limit
    · by_cases hc : l0.status = Status.completed
      · simp only [batchLoop, if_pos hu, if_pos hc, List.mem_cons] at hl
        rcases hl with rfl | hl
        · exact hin0
        · exact ih used c hinr l hl
      · rcases hr : retryGen oracle c with ⟨b, k, w⟩ | ⟨m, k, w⟩ | ⟨m, k, w⟩ <;>
          simp only [batchLoop, if_pos hu, if_neg hc, hr, List.mem_cons] at hl
        · rcases hl with rfl | hl
          · intro hcon; exact Status.noConfusion hcon
          · exact ih (used + 1) (c + k) hinr l hl
        · rcases hl with rfl | hl
          · intro hcon; exact Status.noConfusion hcon
          · exact hinr l hl
        · rcases hl with rfl | hl
          · intro hcon; exact Status.noConfusion hcon
          · exact ih used (c + k) hinr l hl
    · simp only [batchLoop, if_neg hu, List.mem_cons] at hl
      rcases hl with rfl | hl
      · exact hin0
      · exact hinr l hl

lemma batchLoop_completed_frame (oracle : Nat → GenOutcome) (bId limit : Nat) :
    ∀ (suffix : List ScriptLine) (used c : Nat) (i : Nat) (l : ScriptLine),
      suffix[i]? = some l → l.status = Status.completed →
      (batchLoop oracle bId limit suffix used c).suffix[i]? = some l := by
  intro suffix
  induction suffix with
  | nil => intro used c i l h _; simp at h
  | cons l0 rest ih =>
    intro used c i l hi hc
    by_cases hu : used < limit
    · by_cases hc0 : l0.status = Status.completed
      · simp only [batchLoop, if_pos hu, if_pos hc0]
        cases i with
        | zero => simpa using hi
        | succ n =>
          simp only [List.getElem?_cons_succ] at hi ⊢
          exact ih used c n l hi hc
      · cases i with
        | zero =>
          simp only [List.getElem?_cons_zero, Option.some.injEq] at hi
          rw [← hi] at hc
          exact absurd hc hc0
        | succ n =>
          simp only [List.getElem?_cons_succ] at hi
          rcases hr : retryGen oracle c with ⟨b, k, w⟩ | ⟨m, k, w⟩ | ⟨m, k, w⟩ <;>
            simp only [batchLoop, if_pos hu, if_neg hc0, hr, List.getElem?_cons_succ]
          · exact ih (used + 1) (c + k) n l hi hc
          · exact hi
          · exact ih used (c + k) n l hi hc
    · simp only [batchLoop, if_neg hu]
      exact hi

lemma batchLoop_used_eq (oracle : Nat → GenOutcome) (bId limit : Nat) :
    ∀ (suffix : List ScriptLine) (used c : Nat),
      (batchLoop oracle bId limit suffix used c).used
        = used + (batchLoop oracle bId limit suffix used c).succs := by
  intro suffix
  induction suffix with
  | nil => intro used c; rfl
  | cons l rest ih =>
    intro used c
    by_cases hu : used < limit
    · by_cases hc : l.status = Status.completed
      · simp only [batchLoop, if_pos hu, if_pos hc]
        exact ih used c
      · rcases hr : retryGen oracle c with ⟨b, k, w⟩ | ⟨m, k, w⟩ | ⟨m, k, w⟩ <;>
          simp only [batchLoop, if_pos hu, if_neg hc, hr]
        · have := ih (used + 1) (c + k); omega
        · omega
        · exact ih used (c + k)
    · simp only [batchLoop, if_neg hu]; omega

lemma batchLoop_countCompleted (oracle : Nat → GenOutcome) (bId limit : Nat) :
    ∀ (suffix : List ScriptLine) (used c : Nat),
      countCompleted (batchLoop oracle bId limit suffix used c).suffix
        = countCompleted suffix + (batchLoop oracle bId limit suffix used c).succs := by
  intro suffix
  induction suffix with
  | nil => intro used c; rfl
  | cons l rest ih =>
    intro used c
    by_cases hu : used < limit
    · by_cases hc : l.status = Status.completed
      · simp only [batchLoop, if_pos hu, if_pos hc]
        rw [countCompleted_cons, countCompleted_cons, if_pos hc]
        have := ih used c; omega
      · rcases hr : retryGen oracle c with ⟨b, k, w⟩ | ⟨m, k, w⟩ | ⟨m, k, w⟩ <;>
          simp only [batchLoop, if_pos hu, if_neg hc, hr]
        · rw [countCompleted_cons, countCompleted_cons, if_pos (by rfl), if_neg hc]
          have := ih (used + 1) (c + k); omega
        · rw [countCompleted_cons, countCompleted_cons, if_neg hc,
            if_neg (show ({ l with status := Status.pending, error := none } :
              ScriptLine).status ≠ Status.completed by
                intro hcon; exact Status.noConfusion hcon)]
          omega
        · rw [countCompleted_cons, countCompleted_cons, if_neg hc,
            if_neg (show ({ l with status := Status.failed, error := some m } :
              ScriptLine).status ≠ Status.completed by
                intro hcon; exact Status.noConfusion hcon)]
          have := ih used (c + k); omega
    · simp only [batchLoop, if_neg hu]; omega

lemma batchLoop_budget (oracle : Nat → GenOutcome) (bId limit : Nat) :
    ∀ (suffix : List ScriptLine) (used c : Nat), used ≤ limit →
      (batchLoop oracle bId limit suffix used c).used ≤ limit ∧
      (∀ u ∈ (batchLoop oracle bId limit suffix used c).usedTrace, u ≤ limit) ∧
      (∀ u ∈ (batchLoop oracle bId limit suffix used c).startUseds, u < limit) := by
  intro suffix
  induction suffix with
  | nil =>
    intro used c h
    refine ⟨h, ?_, ?_⟩ <;> intro u hu <;> simp [batchLoop] at hu
  | cons l rest ih =>
    intro used c h
    by_cases hu : used < limit
    · by_cases hc : l.status = Status.completed
      · simp only [batchLoop, if_pos hu, if_pos hc]
        exact ih used c h
      · rcases hr : retryGen oracle c with ⟨b, k, w⟩ | ⟨m, k, w⟩ | ⟨m, k, w⟩ <;>
          simp only [batchLoop, if_pos hu, if_neg hc, hr]
        · obtain ⟨h1, h2, h3⟩ := ih (used + 1) (c + k) (by omega)
          refine ⟨h1, ?_, ?_⟩
          · intro u huu
            simp only [List.mem_cons] at huu
            rcases huu with rfl | huu
            · omega
            · exact h2 u huu
          · intro u huu
            simp only [List.mem_cons] at huu
            rcases huu with rfl | huu
            · exact hu
            · exact h3 u huu
        · refine ⟨h, ?_, ?_⟩
          · intro u huu; simp at huu
          · intro u huu
            simp only [List.mem_cons, List.not_mem_nil, or_false] at huu
            rw [huu]; exact hu
        · obtain ⟨h1, h2, h3⟩ := ih used (c + k) h
          refine ⟨h1, h2, ?_⟩
          · intro u huu
            simp only [List.mem_cons] at huu
            rcases huu with rfl | huu
            · exact hu
            · exact h3 u huu
    · simp only [batchLoop, if_neg hu]
      refine ⟨h, ?_, ?_⟩ <;> intro u huu <;> simp at huu

lemma batchLoop_pending_limit (oracle : Nat → GenOutcome) (bId limit : Nat) :
    ∀ (suffix : List ScriptLine) (used c : Nat),
      (batchLoop oracle bId limit suffix used c).quota = false →
      (∃ l ∈ (batchLoop oracle bId limit suffix used c).suffix,
          l.status = Status.pending) →
      limit ≤ (batchLoop oracle bId limit suffix used c).used := by
  intro suffix
  induction suffix with
  | nil => intro used c _ hp; obtain ⟨l, hl, -⟩ := hp; simp [batchLoop] at hl
  | cons l0 rest ih =>
    intro used c hq hp
    by_cases hu : used < limit
    · by_cases hc : l0.status = Status.completed
      · simp only [batchLoop, if_pos hu, if_pos hc] at hq hp ⊢
        obtain ⟨l, hl, hls⟩ := hp
        simp only [List.mem_cons] at hl
        rcases hl with rfl | hl
        · rw [hc] at hls; exact absurd hls (by intro hcon; exact Status.noConfusion hcon)
        · exact ih used c hq ⟨l, hl, hls⟩
      · rcases hr : retryGen oracle c with ⟨b, k, w⟩ | ⟨m, k, w⟩ | ⟨m, k, w⟩ <;>
          simp only [batchLoop, if_pos hu, if_neg hc, hr] at hq hp ⊢
        · obtain ⟨l, hl, hls⟩ := hp
          simp only [List.mem_cons] at hl
          rcases hl with rfl | hl
          · exact absurd hls (by intro hcon; exact Status.noConfusion hcon)
          · exact ih (used + 1) (c + k) hq ⟨l, hl, hls⟩
        · exact absurd hq (by intro hcon; exact Bool.noConfusion hcon)
        · obtain ⟨l, hl, hls⟩ := hp
          simp only [List.mem_cons] at hl
          rcases hl with rfl | hl
          · exact absurd hls (by intro hcon; exact Status.noConfusion hcon)
          · exact ih used (c + k) hq ⟨l, hl, hls⟩
    · simp only [batchLoop, if_neg hu]
      omega

lemma batchLoop_quota_shape (oracle : Nat → GenOutcome) (bId limit : Nat) :
    ∀ (suffix : List ScriptLine) (used c : Nat),
      (batchLoop oracle bId limit suffix used c).quota = true →
      ∃ (n : Nat) (l : ScriptLine), suffix[n]? = some l ∧
        (batchLoop oracle bId limit suffix used c).suffix[n]?
          = some { l with status := Status.pending, error := none } ∧
        (batchLoop oracle bId limit suffix used c).suffix.drop (n + 1)
          = suffix.drop (n + 1) := by
  intro suffix
  induction suffix with
  | nil => intro used c hq; exact absurd hq (by intro hcon; exact Bool.noConfusion hcon)
  | cons l0 rest ih =>
    intro used c hq
    by_cases hu : used < limit
    · by_cases hc : l0.status = Status.completed
      · simp only [batchLoop, if_pos hu, if_pos hc] at hq ⊢
        obtain ⟨n, l, h1, h2, h3⟩ := ih used c hq
        exact ⟨n + 1, l, by simpa using h1, by simpa using h2, by simpa using h3⟩
      · rcases hr : retryGen oracle c with ⟨b, k, w⟩ | ⟨m, k, w⟩ | ⟨m, k, w⟩ <;>
          simp only [batchLoop, if_pos hu, if_neg hc, hr] at hq ⊢
        · obtain ⟨n, l, h1, h2, h3⟩ := ih (used + 1) (c + k) hq
          exact ⟨n + 1, l, by simpa using h1, by simpa using h2, by simpa using h3⟩
        · exact ⟨0, l0, by simp, by simp, by simp⟩
        · obtain ⟨n, l, h1, h2, h3⟩ := ih used (c + k) hq
          exact ⟨n + 1, l, by simpa using h1, by simpa using h2, by simpa using h3⟩
    · simp only [batchLoop, if_neg hu] at hq
      exact absurd hq (by intro hcon; exact Bool.noConfusion hcon)

/-! ## splitResume lemmas -/

lemma isResumable_false_not_pending (l : ScriptLine) (h : isResumable l = false) :
    l.status ≠ Status.pending := by
  simp only [isResumable, Bool.or_eq_false_iff, beq_eq_false_iff_ne] at h
  exact h.1

lemma splitResume_none (ls : List ScriptLine) (h : splitResume ls = none) :
    ∀ l ∈ ls, isResumable l = false := by
  induction ls with
  | nil => intro l hl; simp at hl
  | cons l0 rest ih =>
    intro l hl
    simp only [splitResume] at h
    by_cases hr : isResumable l0
    · rw [if_pos hr] at h; exact Option.noConfusion h
    · rw [if_neg hr] at h
      rcases h2 : splitResume rest with _ | p
      · simp only [List.mem_cons] at hl
        rcases hl with rfl | hl
        · exact Bool.of_not_eq_true hr
        · exact ih h2 l hl
      · rw [h2] at h
        rcases p with ⟨a, b⟩
        exact Option.noConfusion h

lemma splitResume_some (ls : List ScriptLine) :
    ∀ (before suffix : List ScriptLine), splitResume ls = some (before, suffix) →
      ls = before ++ suffix ∧ ∀ l ∈ before, isResumable l = false := by
  induction ls with
  | nil => intro before suffix h; exact Option.noConfusion h
  | cons l0 rest ih =>
    intro before suffix h
    simp only [splitResume] at h
    by_cases hr : isResumable l0
    · rw [if_pos hr] at h
      injection h with h
      injection h with h1 h2
      rw [← h1, ← h2]
      exact ⟨rfl, by intro l hl; simp at hl⟩
    · rw [if_neg hr] at h
      rcases h2 : splitResume rest with _ | ⟨bef, suf⟩
      · rw [h2] at h; exact Option.noConfusion h
      · rw [h2] at h
        injection h with h
        injection h with h3 h4
        obtain ⟨he, hb⟩ := ih bef suf h2
        rw [← h3, ← h4]
        constructor
        · rw [List.cons_append, ← he]
        · intro l hl
          simp only [List.mem_cons] at hl
          rcases hl with rfl | hl
          · exact Bool.of_not_eq_true hr
          · exact hb l hl

/-! ## processBatch projection lemmas -/

lemma processBatch_none_eq (oracle : Nat → GenOutcome) (session : ApiKeySession)
    (lines : List ScriptLine) (hs : splitResume lines = none) :
    (processBatch oracle session lines).lines = lines ∧
    (processBatch oracle session lines).session = session ∧
    (processBatch oracle session lines).quotaExhausted = false ∧
    (processBatch oracle session lines).succs = 0 ∧
    (processBatch oracle session lines).usedTrace = [session.used] ∧
    (processBatch oracle session lines).startUseds = [] := by
  simp [processBatch, hs]

lemma processBatch_some_eq (oracle : Nat → GenOutcome) (session : ApiKeySession)
    (lines before suffix : List ScriptLine)
    (hs : splitResume lines = some (before, suffix)) :
    (processBatch oracle session lines).lines
        = before ++ (batchLoop oracle session.batchId session.limit suffix
            session.used 0).suffix ∧
    (processBatch oracle session lines).session.used
        = (batchLoop oracle session.batchId session.limit suffix session.used 0).used ∧
    (processBatch oracle session lines).quotaExhausted
        = (batchLoop oracle session.batchId session.limit suffix session.used 0).quota ∧
    (processBatch oracle session lines).succs
        = (batchLoop oracle session.batchId session.limit suffix session.used 0).succs ∧
    (processBatch oracle session lines).usedTrace
        = session.used
            :: (batchLoop oracle session.batchId session.limit suffix
                  session.used 0).usedTrace ∧
    (processBatch oracle session lines).startUseds
        = (batchLoop oracle session.batchId session.limit suffix session.used 0).startUseds := by
  by_cases hq : (batchLoop oracle session.batchId session.limit suffix
      session.used 0).quota = true
  · simp [processBatch, hs, hq]
  · simp [processBatch, hs, hq, apply_ite RunResult.lines, apply_ite RunResult.succs,
      apply_ite RunResult.usedTrace, apply_ite RunResult.startUseds,
      apply_ite RunResult.quotaExhausted, apply_ite ApiKeySession.used,
      apply_ite RunResult.session]

lemma processBatch_quota_flags (oracle : Nat → GenOutcome) (session : ApiKeySession)
    (lines before suffix : List ScriptLine)
    (hs : splitResume lines = some (before, suffix))
    (hq : (batchLoop oracle session.batchId session.limit suffix session.used 0).quota
        = true) :
    (processBatch oracle session lines).keyCleared = true ∧
    (processBatch oracle session lines).modalShown = true := by
  simp [processBatch, hs, hq]

/-! ## Parser and filename lemmas -/

lemma splitFirstPipe_eq_none (l : List Char) : splitFirstPipe l = none ↔ '|' ∉ l := by
  induction l with
  | nil => simp [splitFirstPipe]
  | cons c rest ih =>
    simp only [splitFirstPipe, List.mem_cons]
    split_ifs with h
    · simp [h]
    · rcases h2 : splitFirstPipe rest with _ | ⟨a, b⟩ <;> rw [h2] at ih <;> simp only [h2]
      · have hr : '|' ∉ rest := ih.mp rfl
        simp only [eq_self_iff_true, true_iff]
        intro hor
        rcases hor with h3 | h3
        · exact h h3.symm
        · exact hr h3
      · have hr : '|' ∈ rest := by
          by_contra hh
          exact Option.noConfusion (ih.mpr hh)
        simp [hr]

lemma parseLine_originalText (i : Nat) (line : String) :
    (parseLine i line).originalText = line := by
  cases h : splitFirstPipe line.data <;> simp [parseLine, h]

lemma parseLinesFrom_originalText (ls : List String) :
    ∀ i, (parseLinesFrom i ls).map (fun l => l.originalText) = ls := by
  induction ls with
  | nil => intro i; rfl
  | cons hd rest ih =>
    intro i
    simp [parseLinesFrom, parseLine_originalText, ih (i + 1)]

lemma parseLine_status (i : Nat) (line : String) :
    (parseLine i line).status = Status.pending := by
  cases h : splitFirstPipe line.data <;> simp [parseLine, h]

lemma parseLinesFrom_noPipe (ls : List String) :
    ∀ i, ∀ l ∈ parseLinesFrom i ls, '|' ∉ l.originalText.data →
      l.spokenText = jsTrim l.originalText ∧ l.imagePrompt = "" := by
  induction ls with
  | nil => intro i l hl; simp [parseLinesFrom] at hl
  | cons hd rest ih =>
    intro i l hl hp
    simp only [parseLinesFrom, List.mem_cons] at hl
    rcases hl with rfl | hl
    · rw [parseLine_originalText] at hp ⊢
      have hnone : splitFirstPipe hd.data = none := (splitFirstPipe_eq_none hd.data).mpr hp
      simp [parseLine, hnone]
    · exact ih (i + 1) l hl hp

lemma parseLinesFrom_status (ls : List String) :
    ∀ i, ∀ l ∈ parseLinesFrom i ls, l.status = Status.pending := by
  induction ls with
  | nil => intro i l hl; simp [parseLinesFrom] at hl
  | cons hd rest ih =>
    intro i l hl
    simp only [parseLinesFrom, List.mem_cons] at hl
    rcases hl with rfl | hl
    · exact parseLine_status i hd
    · exact ih (i + 1) l hl

/-! ## Claim C7: the derived filename -/

/-- C7 counterexample: the claim says runs of consecutive disallowed
characters are collapsed to a single separator, but the source replaces each
disallowed character by its own underscore: on `"a  b"` (two spaces) the code
yields `"a__b.png"` while the collapsed form would be `"a_b.png"`. -/
theorem claim_C7_counterexample :
    derivedFilename "a  b" = "a__b.png" ∧ specDerivedFilename "a  b" = "a_b.png" ∧
      derivedFilename "a  b" ≠ specDerivedFilename "a  b" := by decide

/-- C7 (amended): the derived filename is the lowercased text with EACH
character outside `[a-z0-9]` replaced by one separator character (runs are
not collapsed), truncated to 50 characters and suffixed with `.png`: the stem
has one character per input character up to 50, all its characters are in
`[a-z0-9_]`, `"Hello world"` yields `"hello_world.png"`, and `"a  b"` yields
`"a__b.png"`. -/
theorem claim_C7_filename_amended (text : String) :
    (sanitizeFilename text).length = min 50 text.length ∧
    (∀ c ∈ (sanitizeFilename text).data,
        ('a' ≤ c ∧ c ≤ 'z') ∨ ('0' ≤ c ∧ c ≤ '9') ∨ c = '_') ∧
    derivedFilename "Hello world" = "hello_world.png" ∧
    derivedFilename "a  b" = "a__b.png" := by
  refine ⟨?_, ?_, by decide, by decide⟩
  · have h1 : (sanitizeFilename text).length
        = (((text.data.map Char.toLower).map
            (fun c => if ('a' ≤ c ∧ c ≤ 'z') ∨ ('0' ≤ c ∧ c ≤ '9') then c else '_')).take
              50).length := rfl
    rw [h1, List.length_take, List.length_map, List.length_map]
    rfl
  · intro c hc
    simp only [sanitizeFilename] at hc
    have hc2 := List.take_subset 50 _ hc
    simp only [List.mem_map] at hc2
    obtain ⟨a, -, rfl⟩ := hc2
    by_cases h : ('a' ≤ a ∧ a ≤ 'z') ∨ ('0' ≤ a ∧ a ≤ '9')
    · rw [if_pos h]; tauto
    · rw [if_neg h]; right; right; rfl

/-- C7 witness: the sanitizer's charset and length bounds evaluated on
`"Hello, World!"`, whose derived filename keeps one underscore per replaced
character. -/
theorem claim_C7_witness :
    (sanitizeFilename "Hello, World!").length = min 50 ("Hello, World!" : String).length ∧
      (('a' ≤ 'h' ∧ 'h' ≤ 'z') ∨ ('0' ≤ 'h' ∧ 'h' ≤ '9') ∨ 'h' = '_') ∧
      derivedFilename "Hello world" = "hello_world.png" :=
  ⟨(claim_C7_filename_amended "Hello, World!").1,
   (claim_C7_filename_amended "Hello, World!").2.1 'h' (by decide),
   (claim_C7_filename_amended "Hello, World!").2.2.1⟩

/-! ## Claim C8: the script parser -/

/-- C8 counterexample: the claim says a delimiter-free non-blank line's
narration equals the full original text, but the source trims it: the line
`" a"` parses to narration `"a"`, not `" a"`. -/
theorem claim_C8_counterexample :
    (parseScript " a").map (fun l => (l.originalText, l.spokenText, l.imagePrompt)) =
      [(" a", "a", "")] ∧ ("a" : String) ≠ " a" := by decide

/-- C8 (amended): the parser keeps exactly the non-blank input lines, in
order, as the records' original texts; a record whose original line has no
`'|'` has the TRIMMED original text as narration and an empty prompt;
`"A|B"` yields narration `"A"` and prompt `"B"`, and splitting happens at the
first delimiter only (`"A|B|C"` yields prompt `"B|C"`). -/
theorem claim_C8_parser_amended (text : String) :
    (parseScript text).map (fun l => l.originalText) = scriptSourceLines text ∧
    (∀ l ∈ parseScript text, '|' ∉ l.originalText.data →
        l.spokenText = jsTrim l.originalText ∧ l.imagePrompt = "") ∧
    (∀ l ∈ parseScript text, l.status = Status.pending) ∧
    (parseScript "A|B").map (fun l => (l.spokenText, l.imagePrompt)) = [("A", "B")] ∧
    (parseScript "A|B|C").map (fun l => (l.spokenText, l.imagePrompt)) = [("A", "B|C")] :=
  ⟨parseLinesFrom_originalText (scriptSourceLines text) 0,
   parseLinesFrom_noPipe (scriptSourceLines text) 0,
   parseLinesFrom_status (scriptSourceLines text) 0,
   by decide, by decide⟩

/-- C8 witness: the amended parser facts evaluated on a concrete two-line
script with a blank line between. -/
theorem claim_C8_witness :
    (parseScript "A|B|C\n\n  \nx y").map (fun l => l.originalText) =
      scriptSourceLines "A|B|C\n\n  \nx y" ∧
    ((parseLine 0 "x y").spokenText = jsTrim (parseLine 0 "x y").originalText ∧
      (parseLine 0 "x y").imagePrompt = "") :=
  ⟨(claim_C8_parser_amended "A|B|C\n\n  \nx y").1,
   (claim_C8_parser_amended "x y").2.1 (parseLine 0 "x y") (by decide) (by decide)⟩

/-- C4 witness: in the sample timeline the hintless entry B is normalized to
start 2 and end 5, exactly 3 seconds long. -/
theorem claim_C4_witness :
    (normalizeTimeline sampleTL)[1]? = some nB ∧
      nB.endTime = nB.startTime + fallbackDurationPerSlide := by
  obtain ⟨u, hu, hd⟩ :=
    claim_C4_fallback_duration sampleTL 1 tlB (by norm_num [sampleTL, tlA, tlB, tlC])
      (by norm_num [tlB]) (by norm_num [tlB])
  have hnb : (normalizeTimeline sampleTL)[1]? = some nB := by
    norm_num [normalizeTimeline, normalizeSweep, normalizeStep, sampleTL, tlA, tlB, tlC,
      nB, MIN_IMAGE_DURATION, fallbackDurationPerSlide]
  rw [hnb] at hu
  cases hu
  exact ⟨hnb, hd⟩

/-! ## Claim C6: no line is left `generating` -/

/-- C6: a controller run never leaves a line in status `generating`: starting
from a line sequence with no `generating` line (as produced by the parser and
by every earlier run), the sequence after the run returns has no `generating`
line either; every line is `pending`, `completed` or `failed`. -/
theorem claim_C6_no_generating_left (oracle : Nat → GenOutcome) (session : ApiKeySession)
    (lines : List ScriptLine) (h : noGenerating lines) :
    noGenerating (processBatch oracle session lines).lines := by
  intro l hl
  rcases hs : splitResume lines with _ | ⟨before, suffix⟩
  · rw [(processBatch_none_eq oracle session lines hs).1] at hl
    exact h l hl
  · obtain ⟨heq, -⟩ := splitResume_some lines before suffix hs
    rw [(processBatch_some_eq oracle session lines before suffix hs).1] at hl
    rcases List.mem_append.mp hl with hm | hm
    · exact h l (heq ▸ List.mem_append.mpr (Or.inl hm))
    · refine batchLoop_no_generating oracle session.batchId session.limit suffix
        session.used 0 ?_ l hm
      intro x hx
      exact h x (heq ▸ List.mem_append.mpr (Or.inr hx))

/-- C6 witness: after a run in which one line fails three times and the next
succeeds, no line is `generating`. -/
theorem claim_C6_witness :
    noGenerating (processBatch failThenOk wSession [wLine 0, wLine 1]).lines :=
  claim_C6_no_generating_left failThenOk wSession [wLine 0, wLine 1]
    (show ∀ l ∈ [wLine 0, wLine 1], l.status ≠ Status.generating by decide)

/-! ## Claim C10: completed lines are untouched -/

/-- C10: a line whose status is `completed` when the run starts is returned
entirely unchanged, every field included: the resume search skips past it and
the loop's sanity check skips it, so it is never regenerated or restamped. -/
theorem claim_C10_completed_frame (oracle : Nat → GenOutcome) (session : ApiKeySession)
    (lines : List ScriptLine) (i : Nat) (l : ScriptLine)
    (hi : lines[i]? = some l) (hc : l.status = Status.completed) :
    (processBatch oracle session lines).lines[i]? = some l := by
  rcases hs : splitResume lines with _ | ⟨before, suffix⟩
  · rw [(processBatch_none_eq oracle session lines hs).1]
    exact hi
  · obtain ⟨heq, -⟩ := splitResume_some lines before suffix hs
    rw [(processBatch_some_eq oracle session lines before suffix hs).1]
    subst heq
    by_cases hlt : i < before.length
    · rw [List.getElem?_append_left hlt] at hi ⊢
      exact hi
    · push_neg at hlt
      rw [List.getElem?_append_right hlt] at hi ⊢
      exact batchLoop_completed_frame oracle session.batchId session.limit suffix
        session.used 0 (i - before.length) l hi hc

/-- C10 witness: a completed line with its payload, filename, batch id and
timestamp survives a run over a later session unchanged. -/
theorem claim_C10_witness :
    (processBatch okOracle wSession [wDone, wLine 1]).lines[0]? = some wDone :=
  claim_C10_completed_frame okOracle wSession [wDone, wLine 1] 0 wDone
    (by decide) (by decide)

/-! ## Claim C1: quota exhaustion rolls the line back and prompts anew -/

/-- C1: when a run aborts because a generation attempt signalled the
distinguished quota error, the stored key is cleared and the operator is
prompted (the source clears the key, `setTempKey('')`, immediately before
opening the modal), and the line that was in progress is `pending` in the
returned sequence (its error cleared, every other field as before), with all
lines after it untouched and the sequence length preserved. -/
theorem claim_C1_quota_rollback (oracle : Nat → GenOutcome) (session : ApiKeySession)
    (lines : List ScriptLine)
    (h : (processBatch oracle session lines).quotaExhausted = true) :
    (processBatch oracle session lines).keyCleared = true ∧
    (processBatch oracle session lines).modalShown = true ∧
    (processBatch oracle session lines).lines.length = lines.length ∧
    ∃ (n : Nat) (l : ScriptLine), lines[n]? = some l ∧
      (processBatch oracle session lines).lines[n]?
        = some { l with status := Status.pending, error := none } ∧
      (processBatch oracle session lines).lines.drop (n + 1) = lines.drop (n + 1) := by
  rcases hs : splitResume lines with _ | ⟨before, suffix⟩
  · rw [(processBatch_none_eq oracle session lines hs).2.2.1] at h
    exact Bool.noConfusion h
  · obtain ⟨heq, -⟩ := splitResume_some lines before suffix hs
    rw [(processBatch_some_eq oracle session lines before suffix hs).2.2.1] at h
    obtain ⟨hkey, hmodal⟩ := processBatch_quota_flags oracle session lines before suffix hs h
    refine ⟨hkey, hmodal, ?_, ?_⟩
    · rw [(processBatch_some_eq oracle session lines before suffix hs).1, heq]
      simp [batchLoop_length]
    · obtain ⟨n, l, h1, h2, h3⟩ :=
        batchLoop_quota_shape oracle session.batchId session.limit suffix session.used 0 h
      refine ⟨before.length + n, l, ?_, ?_, ?_⟩
      · rw [heq, List.getElem?_append_right (Nat.le_add_right before.length n),
          Nat.add_sub_cancel_left]
        exact h1
      · rw [(processBatch_some_eq oracle session lines before suffix hs).1,
          List.getElem?_append_right (Nat.le_add_right before.length n),
          Nat.add_sub_cancel_left]
        exact h2
      · rw [(processBatch_some_eq oracle session lines before suffix hs).1, heq,
          Nat.add_assoc, List.drop_append, List.drop_append, h3]

/-- C1 witness: a quota signal on the very first generation clears the key,
prompts, and leaves the line `pending`. -/
theorem claim_C1_witness :
    (processBatch quotaOracle wSession [wLine 0]).keyCleared = true ∧
      (processBatch quotaOracle wSession [wLine 0]).modalShown = true ∧
      (processBatch quotaOracle wSession [wLine 0]).lines.length = 1 :=
  ⟨(claim_C1_quota_rollback quotaOracle wSession [wLine 0] (by decide)).1,
   (claim_C1_quota_rollback quotaOracle wSession [wLine 0] (by decide)).2.1,
   (claim_C1_quota_rollback quotaOracle wSession [wLine 0] (by decide)).2.2.1⟩

/-! ## Claim C2: the budget invariant -/

/-- C2: in a run whose session starts within its budget, the consumption
counter never exceeds the budget at any point (initial value, every value
after an increment, and the final value), no generation visit starts once
consumption equals the budget, and when the run returns without a quota abort
while a `pending` line remains, consumption is exactly the budget: the run
paused at consumption equal to the budget, not after overshooting. -/
theorem claim_C2_budget_invariant (oracle : Nat → GenOutcome) (session : ApiKeySession)
    (lines : List ScriptLine) (h : session.used ≤ session.limit) :
    usedWithinLimit session.limit (processBatch oracle session lines) ∧
    ((processBatch oracle session lines).quotaExhausted = false →
      (∃ l ∈ (processBatch oracle session lines).lines, l.status = Status.pending) →
      (processBatch oracle session lines).session.used = session.limit) := by
  rcases hs : splitResume lines with _ | ⟨before, suffix⟩
  · obtain ⟨hl, hsess, -, -, htr, hst⟩ := processBatch_none_eq oracle session lines hs
    constructor
    · refine ⟨by rw [hsess]; exact h, ?_, ?_⟩
      · intro u hu
        rw [htr] at hu
        simp only [List.mem_cons, List.not_mem_nil, or_false] at hu
        rw [hu]; exact h
      · intro u hu
        rw [hst] at hu
        simp at hu
    · intro _ hp
      obtain ⟨l, hlm, hls⟩ := hp
      rw [hl] at hlm
      exact absurd hls (isResumable_false_not_pending l (splitResume_none lines hs l hlm))
  · obtain ⟨hl, hused, hquo, -, htr, hst⟩ :=
      processBatch_some_eq oracle session lines before suffix hs
    obtain ⟨heq, hbef⟩ := splitResume_some lines before suffix hs
    obtain ⟨b1, b2, b3⟩ :=
      batchLoop_budget oracle session.batchId session.limit suffix session.used 0 h
    constructor
    · refine ⟨by rw [hused]; exact b1, ?_, ?_⟩
      · intro u hu
        rw [htr] at hu
        simp only [List.mem_cons] at hu
        rcases hu with rfl | hu
        · exact h
        · exact b2 u hu
      · intro u hu
        rw [hst] at hu
        exact b3 u hu
    · intro hq hp
      obtain ⟨l, hlm, hls⟩ := hp
      rw [hl] at hlm
      rcases List.mem_append.mp hlm with hm | hm
      · exact absurd hls (isResumable_false_not_pending l (hbef l hm))
      · rw [hquo] at hq
        have := batchLoop_pending_limit oracle session.batchId session.limit suffix
          session.used 0 hq ⟨l, hm, hls⟩
        rw [hused]
        omega

/-- C2 witness: a budget-2 session over three pending lines completes two,
pauses with consumption exactly 2, and never oversteps. -/
theorem claim_C2_witness :
    usedWithinLimit wSession.limit
        (processBatch okOracle wSession [wLine 0, wLine 1, wLine 2]) ∧
      (processBatch okOracle wSession [wLine 0, wLine 1, wLine 2]).session.used
        = wSession.limit := by
  have h := claim_C2_budget_invariant okOracle wSession [wLine 0, wLine 1, wLine 2]
    (by decide)
  exact ⟨h.1, h.2 (by decide) ⟨wLine 2, by decide, by decide⟩⟩

/-! ## Claim C9: consumption counts successful generations only -/

/-- C9: over any run, the consumption counter increases by exactly the number
of successful generations, which is also exactly the number of newly
`completed` lines; a line that ends `failed` and a quota-aborted visit
consume nothing, so (concretely) a budget-1 session over two pending lines
whose first generation fails three times visits both lines, completes the
second, and ends with consumption 1. -/
theorem claim_C9_consumption_counting :
    (∀ (oracle : Nat → GenOutcome) (session : ApiKeySession) (lines : List ScriptLine),
        (processBatch oracle session lines).session.used
            = session.used + (processBatch oracle session lines).succs ∧
        countCompleted (processBatch oracle session lines).lines
            = countCompleted lines + (processBatch oracle session lines).succs) ∧
    (processBatch failThenOk { wSession with limit := 1 } [wLine 0, wLine 1]).startUseds.length
        = 2 ∧
    ({ wSession with limit := 1 } : ApiKeySession).limit
        < (processBatch failThenOk { wSession with limit := 1 }
            [wLine 0, wLine 1]).startUseds.length ∧
    (processBatch failThenOk { wSession with limit := 1 } [wLine 0, wLine 1]).session.used
        = 1 ∧
    (processBatch failThenOk { wSession with limit := 1 } [wLine 0, wLine 1]).lines.map
        (fun l => l.status) = [Status.failed, Status.completed] := by
  refine ⟨?_, by decide, by decide, by decide, by decide⟩
  intro oracle session lines
  rcases hs : splitResume lines with _ | ⟨before, suffix⟩
  · obtain ⟨hl, hsess, -, hsuc, -, -⟩ := processBatch_none_eq oracle session lines hs
    rw [hl, hsess, hsuc]
    exact ⟨rfl, rfl⟩
  · obtain ⟨hl, hused, -, hsuc, -, -⟩ :=
      processBatch_some_eq oracle session lines before suffix hs
    obtain ⟨heq, -⟩ := splitResume_some lines before suffix hs
    constructor
    · rw [hused, hsuc]
      exact batchLoop_used_eq oracle session.batchId session.limit suffix session.used 0
    · rw [hl, hsuc, heq, countCompleted_append, countCompleted_append,
        batchLoop_countCompleted oracle session.batchId session.limit suffix session.used 0]
      omega

/-! ## Claim C5: the three-failure retry path -/

/-- C5: when the three generation attempts for a visited line all fail with
generic (non-quota) errors, the line comes out `failed` with its error set to
the LAST attempt's message (non-empty whenever that message is), exactly two
fixed 1.5-second backoffs were awaited for that line (between attempts 1-2
and 2-3, none after the third), and the loop carries on with the remaining
lines in the same run, consuming no budget for the failed line. -/
theorem claim_C5_retry_failure (oracle : Nat → GenOutcome) (bId limit : Nat)
    (l : ScriptLine) (rest : List ScriptLine) (used c : Nat) (m1 m2 m3 : String)
    (hu : used < limit) (hl : l.status ≠ Status.completed)
    (h1 : oracle c = GenOutcome.err m1) (h2 : oracle (c + 1) = GenOutcome.err m2)
    (h3 : oracle (c + 2) = GenOutcome.err m3) (hm : m3 ≠ "") :
    (batchLoop oracle bId limit (l :: rest) used c).suffix
        = { l with status := Status.failed, error := some m3 }
            :: (batchLoop oracle bId limit rest used (c + 3)).suffix ∧
    ({ l with status := Status.failed, error := some m3 } : ScriptLine).error ≠ some "" ∧
    (batchLoop oracle bId limit (l :: rest) used c).backoffs
        = (3/2 : ℚ) :: (3/2 : ℚ) :: (batchLoop oracle bId limit rest used (c + 3)).backoffs ∧
    (batchLoop oracle bId limit (l :: rest) used c).used
        = (batchLoop oracle bId limit rest used (c + 3)).used ∧
    (batchLoop oracle bId limit (l :: rest) used c).succs
        = (batchLoop oracle bId limit rest used (c + 3)).succs := by
  have hr : retryGen oracle c = AttemptResult.failedAll m3 3 [(3/2 : ℚ), (3/2 : ℚ)] := by
    simp [retryGen, h1, h2, h3]
  refine ⟨?_, ?_, ?_, ?_, ?_⟩
  · simp only [batchLoop, if_pos hu, if_neg hl, hr]
  · intro hcon
    injection hcon with hcon
    exact hm hcon
  · simp only [batchLoop, if_pos hu, if_neg hl, hr]
    rfl
  · simp only [batchLoop, if_pos hu, if_neg hl, hr]
  · simp only [batchLoop, if_pos hu, if_neg hl, hr]

/-- C5 witness: a line whose three attempts all fail with `"boom"` ends
`failed` with that message and the run moves on. -/
theorem claim_C5_witness :
    (batchLoop errOracle 1 1 [wLine 0] 0 0).suffix
        = [{ wLine 0 with status := Status.failed, error := some "boom" }] ∧
      (batchLoop errOracle 1 1 [wLine 0] 0 0).backoffs = [(3/2 : ℚ), (3/2 : ℚ)] := by
  have h := claim_C5_retry_failure errOracle 1 1 (wLine 0) [] 0 0 "boom" "boom" "boom"
    (by decide) (by decide) rfl rfl rfl (by decide)
  refine ⟨?_, ?_⟩
  · rw [h.1]; rfl
  · rw [h.2.2.1]; rfl

end AVM
